import Mathlib

/-!
Shallow embedding of `changed-habr-articles.py` (wirenboard/website-automations).

Python strings are modelled as `List Char`; the feed XML document as a tree of
elements; the content store (the checkout's `content/ru/_articles` directory)
as an association list from file path to file content; external collaborators
(`datetime.strptime`∘`strftime`, the `transliterate` library, image
fetch/decode/save success) as function parameters.  Fallible Python code
(uncaught `AttributeError` / `ValueError`) is modelled with `Except` / an
explicit error field.
-/

/-- Python strings are modelled as lists of characters. -/
abbrev Str := List Char

/-- Coercion from Lean string literals to the model's string type. -/
def str (s : String) : Str := s.data

/-- Model of Python `str.lower()` for the character sets this program meets:
ASCII letters plus the Cyrillic range А..Я and Ё. -/
def pyLower (c : Char) : Char :=
  if 'A' ≤ c ∧ c ≤ 'Z' then Char.ofNat (c.toNat + 32)
  else if 0x410 ≤ c.toNat ∧ c.toNat ≤ 0x42F then Char.ofNat (c.toNat + 0x20)
  else if c.toNat = 0x401 then Char.ofNat 0x451
  else c

/-- Model of Python `str.lower()` on whole strings. -/
def pyLowerS (s : Str) : Str := s.map pyLower

/-- Model of Python `str.isalnum()` for the character sets this program meets:
ASCII letters and digits plus Cyrillic letters. -/
def pyIsAlnum (c : Char) : Bool :=
  ('a' ≤ c && c ≤ 'z') || ('A' ≤ c && c ≤ 'Z') || ('0' ≤ c && c ≤ '9') ||
  (0x410 ≤ c.toNat && c.toNat ≤ 0x44F) || c.toNat = 0x401 || c.toNat = 0x451

/-- Characters Python `str.split()` / `str.strip()` treat as whitespace. -/
def pyIsSpace (c : Char) : Bool :=
  c = ' ' || c = '\t' || c = '\n' || c = '\x0b' || c = '\x0c' || c = '\r'

/-- Model of Python `str.find`: index of the first occurrence of `needle`,
`none` when absent (Python returns `-1`). -/
def pyFind (needle : Str) : Str → Option Nat
  | [] => if needle.isPrefixOf [] then some 0 else none
  | c :: rest =>
    if needle.isPrefixOf (c :: rest) then some 0
    else (pyFind needle rest).map (· + 1)

/-- Model of the Python substring test `needle in hay`. -/
def pyContains (needle hay : Str) : Bool := (pyFind needle hay).isSome

/-- Fuel-driven worker for `pySplit`; the fuel only bounds the recursion and
`hay.length + 1` steps always suffice for a non-empty separator. -/
def pySplitF (sep : Str) : Nat → Str → List Str
  | 0, hay => [hay]
  | fuel + 1, hay =>
    match pyFind sep hay with
    | none => [hay]
    | some i => hay.take i :: pySplitF sep fuel (hay.drop (i + sep.length))

/-- Model of Python `str.split(sep)` for a non-empty separator. -/
def pySplit (sep hay : Str) : List Str := pySplitF sep (hay.length + 1) hay

/-- Model of Python `str.strip()`. -/
def pyStrip (s : Str) : Str :=
  ((s.dropWhile pyIsSpace).reverse.dropWhile pyIsSpace).reverse

/-- Canonical-link extraction, from `item.find('link').text.split('?')[0]`:
the part of the raw link before the first `?`. -/
def stripQuery (raw : Str) : Str :=
  match pySplit (str "?") raw with
  | [] => []
  | h :: _ => h

/-- Model of an `xml.etree.ElementTree` element: tag, optional text content,
child elements in document order. -/
inductive XElem where
  | mk (tag : Str) (text : Option Str) (children : List XElem)

/-- Tag of an element. -/
def XElem.tag : XElem → Str
  | .mk t _ _ => t

/-- Text of an element (`None` for an element with no text content). -/
def XElem.text : XElem → Option Str
  | .mk _ tx _ => tx

/-- Children of an element. -/
def XElem.children : XElem → List XElem
  | .mk _ _ cs => cs

/-- Model of `Element.find(tag)`: the first direct child with the given tag. -/
def findTag (t : Str) (e : XElem) : Option XElem :=
  e.children.find? (fun c => c.tag == t)

/-- Model of `Element.findall(tag)`: all direct children with the given tag,
in document order. -/
def findAllTag (t : Str) (e : XElem) : List XElem :=
  e.children.filter (fun c => c.tag == t)

/-- Worker for `findItems`: all descendants (in document order) of the
elements of the list that carry the `item` tag. -/
def findItemsL : List XElem → List XElem
  | [] => []
  | XElem.mk tg tx cs :: rest =>
    (if tg == str "item" then [XElem.mk tg tx cs] else []) ++
      findItemsL cs ++ findItemsL rest

/-- Model of `root.findall(".//item")`: every descendant of the root tagged
`item`, in document order. -/
def findItems (root : XElem) : List XElem := findItemsL root.children

/-- The constant `EXCLUDE_KEYWORDS` of the script. -/
def EXCLUDE_KEYWORDS : List Str :=
  [str "интервью", str "выставка", str "репортаж", str "конференция", str "wbce"]

/-- The constant `EXCLUDE_AUTHORS` of the script. -/
def EXCLUDE_AUTHORS : List Str := [str "lavritech", str "another_author"]

/-- The exclusion decision of `fetch_habr_articles` (lines 89-95): author
match, then keyword in title+description, then keyword in a category, first
match giving the reported reason. -/
def exclusionReason (creator title description : Str) (categories : List Str) :
    Option Str :=
  if EXCLUDE_AUTHORS.any (fun a => pyContains (pyLowerS a) (pyLowerS creator)) then
    some (str "author excluded")
  else if EXCLUDE_KEYWORDS.any
      (fun k => pyContains k (pyLowerS title ++ pyLowerS description)) then
    some (str "keyword in title/description")
  else if categories.any
      (fun cat => EXCLUDE_KEYWORDS.any (fun k => pyContains k (pyLowerS cat))) then
    some (str "keyword in category")
  else none

/-- Model of `extract_image_url`: first `<img src=` occurrence; the URL is the
slice from ten characters past the match up to the next `"` (Python's
`description[start:-1]` when no closing quote exists, since `find` gives `-1`). -/
def extract_image_url (description : Str) : Option Str :=
  match pyFind (str "<img src=") description with
  | none => none
  | some i =>
    let start := i + 10
    match pyFind (str "\"") (description.drop start) with
    | some j => some ((description.drop start).take j)
    | none => some (description.drop start).dropLast

/-- The dictionary appended to `articles` for a kept feed item. -/
structure FeedItem where
  title : Str
  link : Str
  image_url : Option Str
  date : Str
deriving DecidableEq, Repr

/-- Uncaught Python exceptions the modelled code can raise. -/
inductive PyErr where
  /-- `AttributeError`: `.text` or `.split` on `None`. -/
  | attributeError
  /-- `ValueError` from `datetime.strptime` on a malformed timestamp. -/
  | valueError
  /-- `ValueError` from unpacking `line.split("url: ")` into two names. -/
  | valueErrorUnpack
  /-- `ValueError("no path specified")` from `os.path.relpath(None, REPO_PATH)`:
  `posixpath.relpath` begins with `if not path: raise ValueError(...)`, before
  any type conversion of its argument. -/
  | valueErrorRelpath
  /-- `TypeError`: the class `os.path.relpath` would raise on a non-string
  argument if its empty-path check did not fire first.  The modelled program
  never raises it: `relpath(None, ...)` raises `ValueError` instead.  Kept so
  that statements about the exception's class can be expressed. -/
  | typeError
deriving DecidableEq, Repr

/-- Model of `item.find(tag).text or ""`: `AttributeError` when the element is
missing, the empty string when its text is `None`. -/
def textOrEmpty (t : Str) (it : XElem) : Except PyErr Str :=
  match findTag t it with
  | none => .error .attributeError
  | some e => .ok (e.text.getD [])

/-- Model of `item.find('link').text.split('?')[0]`: `AttributeError` when the
element is missing or its text is `None`. -/
def linkOf (it : XElem) : Except PyErr Str :=
  match findTag (str "link") it with
  | none => .error .attributeError
  | some e =>
    match e.text with
    | none => .error .attributeError
    | some raw => .ok (stripQuery raw)

/-- The namespaced tag of the creator element. -/
def creatorTag : Str := str "\x7bhttp://purl.org/dc/elements/1.1/\x7dcreator"

/-- The categories of an item:
`[cat.text for cat in item.findall("category") if cat.text]`. -/
def categoriesOf (it : XElem) : List Str :=
  (findAllTag (str "category") it).filterMap
    (fun c => match c.text with
      | none => none
      | some t => if t = [] then none else some t)

/-- One iteration of the item loop of `fetch_habr_articles` (lines 81-105),
in source evaluation order: title, description, creator, categories, pubDate,
date formatting (`fmtDate` models `strptime`+`strftime`, `none` being a
`ValueError`), exclusion decision, then the link access of whichever branch
is taken.  `.inl` is an entry of `excluded`, `.inr` an entry of `articles`. -/
def processItem (fmtDate : Str → Option Str) (it : XElem) :
    Except PyErr (Sum Str FeedItem) :=
  match textOrEmpty (str "title") it with
  | .error e => .error e
  | .ok title =>
  match textOrEmpty (str "description") it with
  | .error e => .error e
  | .ok description =>
  match textOrEmpty creatorTag it with
  | .error e => .error e
  | .ok creator =>
  let categories := categoriesOf it
  match textOrEmpty (str "pubDate") it with
  | .error e => .error e
  | .ok pub_date =>
  match fmtDate pub_date with
  | none => .error .valueError
  | some date_formatted =>
  match exclusionReason creator title description categories with
  | some reason =>
    (match linkOf it with
     | .error e => .error e
     | .ok link => .ok (.inl (link ++ str " — exclusion reason: " ++ reason)))
  | none =>
    (match linkOf it with
     | .error e => .error e
     | .ok link => .ok (.inr ⟨title, link, extract_image_url description, date_formatted⟩))

/-- The item loop of `fetch_habr_articles`, accumulating the `excluded` and
`articles` lists in document order; the first uncaught exception aborts. -/
def processItems (fmtDate : Str → Option Str) :
    List XElem → Except PyErr (List Str × List FeedItem)
  | [] => .ok ([], [])
  | it :: rest =>
    match processItem fmtDate it with
    | .error e => .error e
    | .ok r =>
    match processItems fmtDate rest with
    | .error e => .error e
    | .ok (ex, ar) =>
    match r with
    | .inl e => .ok (e :: ex, ar)
    | .inr a => .ok (ex, a :: ar)

/-- Model of `fetch_habr_articles` on an already-fetched, well-formed XML
document (the HTTP fetch and XML parse are external). -/
def fetch_habr_articles (fmtDate : Str → Option Str) (root : XElem) :
    Except PyErr (List Str × List FeedItem) :=
  processItems fmtDate (findItems root)

/-- Decidable equality for `Except`, used to evaluate concrete runs. -/
instance instDecEqExcept {e a : Type} [DecidableEq e] [DecidableEq a] :
    DecidableEq (Except e a) := fun x y =>
  match x, y with
  | .ok u, .ok v =>
    if h : u = v then .isTrue (by rw [h]) else .isFalse (fun hc => by cases hc; exact h rfl)
  | .error u, .error v =>
    if h : u = v then .isTrue (by rw [h]) else .isFalse (fun hc => by cases hc; exact h rfl)
  | .ok _, .error _ => .isFalse (fun hc => by cases hc)
  | .error _, .ok _ => .isFalse (fun hc => by cases hc)

/-- The constant `REPO_PATH` of the script. -/
def REPO_PATH : Str := str "./website"

/-- Model of `os.path.join` for the separator-free paths this script builds. -/
def pathJoin (a b : Str) : Str := a ++ '/' :: b

/-- The constant `CONTENT_PATH` of the script. -/
def CONTENT_PATH : Str := str "./website/content/ru/_articles"

/-- The constant `IMG_PATH` of the script. -/
def IMG_PATH : Str := str "./website/public/img/articles"

/-- Full path of the markdown entry file for a base filename. -/
def mdPathOf (filename : Str) : Str := pathJoin CONTENT_PATH (filename ++ str ".md")

/-- Full path of the image file for a base filename. -/
def imgPathOf (filename : Str) : Str := pathJoin IMG_PATH (filename ++ str ".webp")

/-- The content store: the `.md` files under `CONTENT_PATH`, as pairs of full
path and file content, in directory order. -/
abbrev ContentStore := List (Str × Str)

/-- Lines of a file, as `grep` sees them. -/
def fileLines (content : Str) : List Str := pySplit (str "\n") content

/-- Model of `grep -hr "^url: " CONTENT_PATH`: every line starting with
`url: `, over all store files in order. -/
def grepUrlLines (contents : List Str) : List Str :=
  contents.flatMap (fun c => (fileLines c).filter (fun l => (str "url: ").isPrefixOf l))

/-- Model of `_, url = line.split("url: ")` followed by `url.strip()`: the
unpacking raises `ValueError` unless the split yields exactly two parts. -/
def parseUrlLine (line : Str) : Except PyErr Str :=
  match pySplit (str "url: ") line with
  | [_, url] => .ok (pyStrip url)
  | _ => .error .valueErrorUnpack

/-- The line loop of `fetch_github_articles`; an unpack `ValueError` aborts. -/
def parseUrlLines : List Str → Except PyErr (List Str)
  | [] => .ok []
  | l :: rest =>
    match parseUrlLine l with
    | .error e => .error e
    | .ok u =>
    match parseUrlLines rest with
    | .error e => .error e
    | .ok us => .ok (u :: us)

/-- Model of `fetch_github_articles`: enumerate the `url:` front-matter values
of all store files (an empty result corresponds to the caught
`CalledProcessError` of a matchless `grep`). -/
def fetch_github_articles (contents : List Str) : Except PyErr (List Str) :=
  parseUrlLines (grepUrlLines contents)

/-- Decimal digit rendering worker; the fuel only bounds the recursion and
`n` steps always suffice. -/
def decimalAux : Nat → Nat → Str
  | 0, _ => []
  | fuel + 1, n => if n = 0 then [] else decimalAux fuel (n / 10) ++ [Nat.digitChar (n % 10)]

/-- Model of the Python decimal rendering `f"..."` of a natural number. -/
def decimal (n : Nat) : Str := if n = 0 then ['0'] else decimalAux n n

/-- The `k`-th candidate filename of the collision loop of
`transliterate_filename`: the base name, then `base_1`, `base_2`, dots. -/
def cand (base : Str) : Nat → Str
  | 0 => base
  | k + 1 => base ++ '_' :: decimal (k + 1)

/-- The `while os.path.exists(...)` collision loop of `transliterate_filename`
over the live list of existing store paths.  The fuel only bounds the
unbounded `while`; `existing.length + 1` steps always reach a free candidate
(see `resolveLoop_finds_least`), so the fuel-exhausted branch is dead code. -/
def resolveLoop (existing : List Str) (base : Str) : Nat → Nat → Str
  | 0, k => cand base k
  | fuel + 1, k =>
    if mdPathOf (cand base k) ∈ existing then resolveLoop existing base fuel (k + 1)
    else cand base k

/-- Model of Python `str.split()` (no argument): whitespace-separated words,
empties dropped.  `cur` is the reversed word being accumulated. -/
def pyWordsAux (cur : Str) : Str → List Str
  | [] => if cur = [] then [] else [cur.reverse]
  | c :: rest =>
    if pyIsSpace c then
      if cur = [] then pyWordsAux [] rest else cur.reverse :: pyWordsAux [] rest
    else pyWordsAux (c :: cur) rest

/-- Model of Python `str.split()` with no argument. -/
def pyWords (s : Str) : List Str := pyWordsAux [] s

/-- Model of `transliterate_filename`.  The external `transliterate` library
(`translit(title, 'ru', reversed=True)`) is the parameter `tr`; the rest
follows the source: lower-case, keep only alphanumerics and spaces, first
seven words joined by underscores, then the collision loop against the live
list of existing store paths. -/
def transliterate_filename (tr : Str → Str) (existing : List Str) (title : Str) : Str :=
  let translit_title := pyLowerS (tr title)
  let clean_title := translit_title.filter (fun c => pyIsAlnum c || c == ' ')
  let words := pyWords clean_title
  let filename := List.intercalate (str "_") (words.take 7)
  resolveLoop existing filename (existing.length + 1) 0

/-- The markdown front matter written by `create_markdown_file`. -/
def mdContent (title link filename date : Str) : Str :=
  str "---\ntitle: \"" ++ title ++ str "\"\nurl: " ++ link ++
  str "\ncover: /img/articles/" ++ filename ++ str ".webp\ndate: " ++ date ++
  str "\ncategory: IMPORTED_SELECT_CATEGORY\n---"

/-- Model of `create_markdown_file`: write the entry file into the content
store and return the new store and the file path. -/
def create_markdown_file (store : ContentStore) (title link filename date : Str) :
    ContentStore × Str :=
  let md_file_path := mdPathOf filename
  (store ++ [(md_file_path, mdContent title link filename date)], md_file_path)

/-- Model of `save_image`: the parameter `oracle` tells whether the external
fetch, decode, resize and save of a URL succeed.  Every failure — including
`requests.get(None)` when the URL is absent — is caught by the `except` and
surfaces as `none`; success returns the written image path. -/
def save_image (oracle : Str → Bool) (image_url : Option Str) (filename : Str) :
    Option Str :=
  match image_url with
  | none => none
  | some url => if oracle url then some (imgPathOf filename) else none

/-- One iteration of the per-article loop of `main` (lines 276-280): derive
the filename from the live store, write the markdown entry, attempt the
image, collect the `(md_file, img_file)` pair. -/
def processNewArticle (tr : Str → Str) (oracle : Str → Bool)
    (store : ContentStore) (imgStore : List Str) (a : FeedItem) :
    ContentStore × List Str × (Str × Option Str) :=
  let filename := transliterate_filename tr (store.map (·.1)) a.title
  let wr := create_markdown_file store a.title a.link filename a.date
  let img_file := save_image oracle a.image_url filename
  let imgStore' := match img_file with | some p => imgStore ++ [p] | none => imgStore
  (wr.1, imgStore', (wr.2, img_file))

/-- The per-article loop of `main`, threading the live store state. -/
def createLoop (tr : Str → Str) (oracle : Str → Bool) :
    ContentStore → List Str → List FeedItem →
    ContentStore × List Str × List (Str × Option Str)
  | store, imgStore, [] => (store, imgStore, [])
  | store, imgStore, a :: rest =>
    let st := processNewArticle tr oracle store imgStore a
    let rest2 := createLoop tr oracle st.1 st.2.1 rest
    (rest2.1, rest2.2.1, st.2.2 :: rest2.2.2)

/-- Model of `os.path.relpath(p, REPO_PATH)` for the paths this script
builds. -/
def relpath (p : Str) : Str :=
  if (str "./website/").isPrefixOf p then p.drop 10 else p

/-- Observable actions of the publishing step `commit_and_push_changes`.
`git...` constructors are real `git`/`gh` invocations, `emu...` constructors
are the `[EMULATION]` log lines of dry-run mode, `warnMissing` is the
file-not-found warning that `continue`s the loop. -/
inductive PubAct where
  | gitDeleteBranch
  | gitBranch
  | emuBranch
  | gitAdd (md_rel img_rel : Str)
  | emuAdd (rel : Str)
  | warnMissing (md_file img_file : Str)
  | gitCommit
  | emuCommit
  | gitPush
  | emuPush
  | gitPr
  | emuPr
deriving DecidableEq, Repr

/-- The `for md_file, img_file in created_files` loop of
`commit_and_push_changes` (lines 242-256).  `os.path.relpath` on `None`
raises `ValueError("no path specified")` before the existence check, so a
pair with an absent image stops the loop there, discarding nothing already
done but emitting no further action.  `ex` models `os.path.exists`. -/
def pubLoop (ex : Str → Bool) (dry : Bool) :
    List (Str × Option Str) → List PubAct × Option PyErr
  | [] => ([], none)
  | (md_file, imgOpt) :: rest =>
    match imgOpt with
    | none => ([], some .valueErrorRelpath)
    | some img_file =>
      let md_rel := relpath md_file
      let img_rel := relpath img_file
      let acts :=
        if !(ex md_file) || !(ex img_file) then [PubAct.warnMissing md_file img_file]
        else if dry then [PubAct.emuAdd md_rel, PubAct.emuAdd img_rel]
        else [PubAct.gitAdd md_rel img_rel]
      let rest2 := pubLoop ex dry rest
      (acts ++ rest2.1, rest2.2)

/-- Model of `commit_and_push_changes`: delete a pre-existing same-named
branch (a real `git branch -D` even in dry-run mode, `branchExists` models
the external `git branch` listing), create the branch (emulated in dry-run),
stage each artifact pair, then commit, push and open the pull request
(each emulated in dry-run).  An uncaught `ValueError` from the staging loop
aborts before commit/push/PR. -/
def commit_and_push_changes (ex : Str → Bool) (branchExists dry : Bool)
    (created_files : List (Str × Option Str)) : List PubAct × Option PyErr :=
  let delActs := if branchExists then [PubAct.gitDeleteBranch] else []
  let brActs := if dry then [PubAct.emuBranch] else [PubAct.gitBranch]
  let lp := pubLoop ex dry created_files
  let tailActs :=
    match lp.2 with
    | some _ => []
    | none =>
      if dry then [PubAct.emuCommit, PubAct.emuPush, PubAct.emuPr]
      else [PubAct.gitCommit, PubAct.gitPush, PubAct.gitPr]
  (delActs ++ brActs ++ lp.1 ++ tailActs, lp.2)

/-- Observable outcome of one run of `main`: final content store, final image
directory, the collected `created_files` pairs, the publishing actions, and
the uncaught publishing exception if one was raised. -/
structure RunResult where
  contentStore : ContentStore
  imgStore : List Str
  created_files : List (Str × Option Str)
  acts : List PubAct
  err : Option PyErr
deriving DecidableEq, Repr

/-- Model of `main` (lines 264-282): fetch and filter the feed, enumerate the
store's url values, drop articles whose canonical link is already present,
return early when nothing is new, otherwise write the per-article artifacts
and hand the collected pairs to `commit_and_push_changes`.  The `dry` flag is
threaded exactly as in the source: only `commit_and_push_changes` receives
it. -/
def runMain (fmtDate : Str → Option Str) (tr : Str → Str) (oracle : Str → Bool)
    (root : XElem) (store0 : ContentStore) (img0 : List Str)
    (branchExists dry : Bool) : Except PyErr RunResult :=
  match fetch_habr_articles fmtDate root with
  | .error e => .error e
  | .ok (_excluded, habr_articles) =>
  match fetch_github_articles (store0.map (·.2)) with
  | .error e => .error e
  | .ok github_articles =>
  let new_articles := habr_articles.filter (fun a => !(github_articles.contains a.link))
  if new_articles.isEmpty then
    .ok ⟨store0, img0, [], [], none⟩
  else
    let res := createLoop tr oracle store0 img0 new_articles
    let ex := fun p => (res.1.map (·.1)).contains p || res.2.1.contains p
    let cp := commit_and_push_changes ex branchExists dry res.2.2
    .ok ⟨res.1, res.2.1, res.2.2, cp.1, cp.2⟩

/-! ### Helper lemmas about the string primitives -/

theorem pyFind_single_not_mem {c : Char} : ∀ {s : Str}, c ∉ s → pyFind [c] s = none
  | [], _ => by simp [pyFind, List.isPrefixOf]
  | d :: rest, h => by
    have hcd : (c == d) = false := by
      simp only [beq_eq_false_iff_ne, ne_eq]
      intro hh
      exact h (hh ▸ List.mem_cons_self d rest)
    have ih : pyFind [c] rest = none :=
      pyFind_single_not_mem (fun hm => h (List.mem_cons_of_mem d hm))
    simp [pyFind, List.isPrefixOf, hcd, ih]

theorem pyFind_single_append {c : Char} : ∀ (pre suf : Str), c ∉ pre →
    pyFind [c] (pre ++ c :: suf) = some pre.length
  | [], suf, _ => by simp [pyFind, List.isPrefixOf]
  | d :: pre, suf, h => by
    have hcd : (c == d) = false := by
      simp only [beq_eq_false_iff_ne, ne_eq]
      intro hh
      exact h (hh ▸ List.mem_cons_self d pre)
    have ih : pyFind [c] (pre ++ c :: suf) = some pre.length :=
      pyFind_single_append pre suf (fun hm => h (List.mem_cons_of_mem d hm))
    simp [pyFind, List.isPrefixOf, hcd, ih]

theorem str_q_eq : str "?" = ['?'] := rfl

theorem stripQuery_eq_self {raw : Str} (h : '?' ∉ raw) : stripQuery raw = raw := by
  have hf : pyFind (str "?") raw = none := str_q_eq ▸ pyFind_single_not_mem h
  simp [stripQuery, pySplit, pySplitF, hf]

theorem stripQuery_append_query {base q : Str} (h : '?' ∉ base) :
    stripQuery (base ++ '?' :: q) = base := by
  have hf : pyFind (str "?") (base ++ '?' :: q) = some base.length :=
    str_q_eq ▸ pyFind_single_append base q h
  simp [stripQuery, pySplit, pySplitF, hf, List.take_left]

theorem linkOf_inv {it : XElem} {l : Str} (h : linkOf it = .ok l) :
    ∃ e raw, findTag (str "link") it = some e ∧ e.text = some raw ∧ l = stripQuery raw := by
  unfold linkOf at h
  split at h
  · cases h
  next e heq =>
    split at h
    · cases h
    next raw htext =>
      injection h with h2
      exact ⟨e, raw, heq, htext, h2.symm⟩

theorem processItem_inr_inv {fmtDate : Str → Option Str} {it : XElem} {art : FeedItem}
    (h : processItem fmtDate it = .ok (.inr art)) :
    ∃ title description,
      textOrEmpty (str "title") it = .ok title ∧
      textOrEmpty (str "description") it = .ok description ∧
      linkOf it = .ok art.link ∧
      art.title = title ∧ art.image_url = extract_image_url description := by
  unfold processItem at h
  split at h
  · cases h
  next title h1 =>
  split at h
  · cases h
  next description h2 =>
  split at h
  · cases h
  next creator h3 =>
  split at h
  · cases h
  next pub_date h4 =>
  split at h
  · cases h
  next date h5 =>
  split at h
  next e h6 =>
    simp only [] at h
    split at h <;> cases h
  next link h6 =>
    simp only [] at h
    split at h
    · cases h
    · injection h with h8
      injection h8 with h9
      subst h9
      exact ⟨title, description, h1, h2, h6, rfl, rfl⟩

/-! ### Concrete fixtures used by witnesses and counterexamples -/

/-- A concrete model of `strptime`+`strftime` for witnesses: exactly one
well-formed timestamp. -/
def fmtDateTest (s : Str) : Option Str :=
  if s = str "Mon, 01 Jan 2024 00:00:00 GMT" then some (str "2024-01-01") else none

/-- A concrete transliteration function for witnesses (identity on the Latin
titles used there). -/
def trTest (s : Str) : Str := s

/-- A concrete feed item that is kept by the exclusion filter. -/
def itemTest : XElem := .mk (str "item") none
  [.mk (str "title") (some (str "Test title")) [],
   .mk (str "description") (some (str "plain")) [],
   .mk creatorTag (some (str "someone")) [],
   .mk (str "pubDate") (some (str "Mon, 01 Jan 2024 00:00:00 GMT")) [],
   .mk (str "link") (some (str "https://habr.com/ru/p/1/?utm=x")) []]

/-- The article dictionary `itemTest` parses to. -/
def artTest : FeedItem :=
  ⟨str "Test title", str "https://habr.com/ru/p/1/", none, str "2024-01-01"⟩

/-- C4: canonical-link extraction strips the query string.  For every item an
accepted article is parsed from, the article's link — the one compared
against the store and the one interpolated into the entry file — is the raw
link text cut before the first question mark; two raw links differing only
in their query part yield the same canonical link; and the markdown entry
embeds exactly that canonical link in its `url:` line. -/
theorem C4_canonical_link_strips_query (fmtDate : Str → Option Str) (it : XElem)
    (art : FeedItem) (h : processItem fmtDate it = .ok (.inr art)) :
    (∃ e raw, findTag (str "link") it = some e ∧ XElem.text e = some raw ∧
      art.link = stripQuery raw) ∧
    (∀ base q : Str, '?' ∉ base →
      stripQuery base = base ∧ stripQuery (base ++ '?' :: q) = base) ∧
    (∀ t fn d : Str, ∃ pre post,
      mdContent t art.link fn d = pre ++ (str "url: " ++ art.link) ++ post) := by
  obtain ⟨title, description, h1, h2, hlink, _, _⟩ := processItem_inr_inv h
  refine ⟨?_, ?_, ?_⟩
  · obtain ⟨e, raw, he, ht, hl⟩ := linkOf_inv hlink
    exact ⟨e, raw, he, ht, hl⟩
  · exact fun base q hb => ⟨stripQuery_eq_self hb, stripQuery_append_query hb⟩
  · intro t fn d
    refine ⟨str "---\ntitle: \"" ++ t ++ str "\"\n",
      str "\ncover: /img/articles/" ++ fn ++ str ".webp\ndate: " ++ d ++
        str "\ncategory: IMPORTED_SELECT_CATEGORY\n---", ?_⟩
    have hs : (str "\"\nurl: " : Str) = str "\"\n" ++ str "url: " := rfl
    simp [mdContent, hs, List.append_assoc]

/-- Witness for C4 at a concrete item whose raw link carries a `utm` query. -/
theorem C4_canonical_link_strips_query_witness :
    (∃ e raw, findTag (str "link") itemTest = some e ∧ XElem.text e = some raw ∧
      artTest.link = stripQuery raw) ∧
    (∀ t fn d : Str, ∃ pre post,
      mdContent t artTest.link fn d = pre ++ (str "url: " ++ artTest.link) ++ post) :=
  ⟨(C4_canonical_link_strips_query fmtDateTest itemTest artTest (by decide)).1,
   (C4_canonical_link_strips_query fmtDateTest itemTest artTest (by decide)).2.2⟩

theorem pyContains_iff {needle hay : Str} : pyContains needle hay = true ↔ needle <:+: hay := by
  induction hay with
  | nil => cases needle <;> simp [pyContains, pyFind, List.isPrefixOf]
  | cons c rest ih =>
    unfold pyContains pyFind
    split
    next hp =>
      simp only [Option.isSome_some, true_iff]
      exact List.infix_cons_iff.mpr (Or.inl (List.isPrefixOf_iff_prefix.mp hp))
    next hp =>
      rw [show (Option.map (fun x => x + 1) (pyFind needle rest)).isSome =
        (pyFind needle rest).isSome from by cases pyFind needle rest <;> rfl]
      rw [show ((pyFind needle rest).isSome = true) ↔ pyContains needle rest = true from Iff.rfl]
      rw [ih]
      constructor
      · exact fun h2 => List.infix_cons_iff.mpr (Or.inr h2)
      · intro h2
        rcases List.infix_cons_iff.mp h2 with h3 | h3
        · exact absurd (List.isPrefixOf_iff_prefix.mpr h3) (by simpa using hp)
        · exact h3

/-- The author rule of the exclusion filter, as a proposition: some excluded
author token is a case-insensitive substring of the creator field. -/
def AuthorMatch (creator : Str) : Prop :=
  ∃ a ∈ EXCLUDE_AUTHORS, pyLowerS a <:+: pyLowerS creator

/-- The text rule: some excluded keyword occurs in the concatenation of the
lower-cased title and description. -/
def KeywordTextMatch (title description : Str) : Prop :=
  ∃ k ∈ EXCLUDE_KEYWORDS, k <:+: (pyLowerS title ++ pyLowerS description)

/-- The category rule: some excluded keyword occurs in some lower-cased
category tag. -/
def KeywordCategoryMatch (categories : List Str) : Prop :=
  ∃ cat ∈ categories, ∃ k ∈ EXCLUDE_KEYWORDS, k <:+: pyLowerS cat

/-- C3: the exclusion filter is a pure function of the item fields and the
configured lists; an item is dropped (the reason is `some`) iff at least one
of the three rules matches, and the reported reason is that of the first
matching rule in the precedence author, then title/description keyword, then
category keyword — in particular an item matching both the author rule and a
keyword rule reports `author excluded`. -/
theorem C3_exclusion_filter (creator title description : Str) (categories : List Str) :
    ((exclusionReason creator title description categories).isSome ↔
      (AuthorMatch creator ∨ KeywordTextMatch title description ∨
        KeywordCategoryMatch categories)) ∧
    (AuthorMatch creator →
      exclusionReason creator title description categories = some (str "author excluded")) ∧
    (¬ AuthorMatch creator → KeywordTextMatch title description →
      exclusionReason creator title description categories =
        some (str "keyword in title/description")) ∧
    (¬ AuthorMatch creator → ¬ KeywordTextMatch title description →
      KeywordCategoryMatch categories →
      exclusionReason creator title description categories =
        some (str "keyword in category")) ∧
    (¬ AuthorMatch creator → ¬ KeywordTextMatch title description →
      ¬ KeywordCategoryMatch categories →
      exclusionReason creator title description categories = none) := by
  have hA : (EXCLUDE_AUTHORS.any
      (fun a => pyContains (pyLowerS a) (pyLowerS creator)) = true) ↔ AuthorMatch creator := by
    simp [AuthorMatch, pyContains_iff]
  have hK : (EXCLUDE_KEYWORDS.any
      (fun k => pyContains k (pyLowerS title ++ pyLowerS description)) = true) ↔
      KeywordTextMatch title description := by
    simp [KeywordTextMatch, pyContains_iff]
  have hC : (categories.any
      (fun cat => EXCLUDE_KEYWORDS.any (fun k => pyContains k (pyLowerS cat))) = true) ↔
      KeywordCategoryMatch categories := by
    simp [KeywordCategoryMatch, pyContains_iff]
  by_cases ha : AuthorMatch creator
  · simp [exclusionReason, hA.mpr ha, ha]
  · have ha' := (Bool.not_eq_true _).mp (fun hh => ha (hA.mp hh))
    by_cases hk : KeywordTextMatch title description
    · simp [exclusionReason, ha', hK.mpr hk, ha, hk]
    · have hk' := (Bool.not_eq_true _).mp (fun hh => hk (hK.mp hh))
      by_cases hc : KeywordCategoryMatch categories
      · simp [exclusionReason, ha', hk', hC.mpr hc, ha, hk, hc]
      · have hc' := (Bool.not_eq_true _).mp (fun hh => hc (hC.mp hh))
        simp [exclusionReason, ha', hk', hc', ha, hk, hc]

/-- Witness for C3: a creator matching the author rule and a title matching a
keyword rule report `author excluded` by precedence. -/
theorem C3_exclusion_filter_witness :
    exclusionReason (str "Посты LavriTech") (str "Большое интервью") (str "") [] =
      some (str "author excluded") :=
  (C3_exclusion_filter (str "Посты LavriTech") (str "Большое интервью") (str "") []).2.1
    ⟨str "lavritech", by decide, str "посты ", [], by decide⟩

theorem processItem_error_of_bad_date {fmtDate : Str → Option Str} {it : XElem}
    {t1 t2 t3 t4 : Str}
    (h1 : textOrEmpty (str "title") it = .ok t1)
    (h2 : textOrEmpty (str "description") it = .ok t2)
    (h3 : textOrEmpty creatorTag it = .ok t3)
    (h4 : textOrEmpty (str "pubDate") it = .ok t4)
    (hd : fmtDate t4 = none) :
    processItem fmtDate it = .error .valueError := by
  unfold processItem
  rw [h1, h2, h3, h4]
  simp [hd]

theorem processItems_error_of_mem {fmtDate : Str → Option Str} {items : List XElem}
    {it : XElem} {e : PyErr} (hmem : it ∈ items)
    (herr : processItem fmtDate it = .error e) :
    ∃ e2, processItems fmtDate items = .error e2 := by
  induction items with
  | nil => cases hmem
  | cons hd tl ih =>
    rcases List.mem_cons.mp hmem with h1 | h1
    · subst h1
      exact ⟨e, by simp [processItems, herr]⟩
    · cases hpi : processItem fmtDate hd with
      | error e3 => exact ⟨e3, by simp [processItems, hpi]⟩
      | ok r =>
        obtain ⟨e2, h2⟩ := ih h1
        exact ⟨e2, by simp [processItems, hpi, h2]⟩

/-- C8: a malformed publish timestamp on any single item whose earlier fields
are readable makes the whole feed parse raise, so the run aborts with no
articles at all — items that preceded the malformed one included, since the
error result carries no partial list. -/
theorem C8_bad_timestamp_aborts_run (fmtDate : Str → Option Str) (root : XElem)
    (it : XElem) (t1 t2 t3 t4 : Str)
    (hmem : it ∈ findItems root)
    (h1 : textOrEmpty (str "title") it = .ok t1)
    (h2 : textOrEmpty (str "description") it = .ok t2)
    (h3 : textOrEmpty creatorTag it = .ok t3)
    (h4 : textOrEmpty (str "pubDate") it = .ok t4)
    (hd : fmtDate t4 = none) :
    ∃ e, fetch_habr_articles fmtDate root = .error e ∧
      ∀ res, fetch_habr_articles fmtDate root ≠ .ok res := by
  obtain ⟨e2, he⟩ :=
    processItems_error_of_mem hmem (processItem_error_of_bad_date h1 h2 h3 h4 hd)
  refine ⟨e2, he, fun res hok => ?_⟩
  rw [fetch_habr_articles] at hok
  rw [hok] at he
  cases he

/-- A concrete item whose publish timestamp does not parse. -/
def itemBadDate : XElem := .mk (str "item") none
  [.mk (str "title") (some (str "Another title")) [],
   .mk (str "description") (some (str "text")) [],
   .mk creatorTag (some (str "someone")) [],
   .mk (str "pubDate") (some (str "not a timestamp")) [],
   .mk (str "link") (some (str "https://habr.com/ru/p/2/")) []]

/-- A feed with a good first item and a malformed-timestamp second item. -/
def rootBadDate : XElem := .mk (str "rss") none
  [.mk (str "channel") none [itemTest, itemBadDate]]

theorem findItems_rootBadDate : findItems rootBadDate = [itemTest, itemBadDate] := by
  simp [findItems, findItemsL, rootBadDate, itemTest, itemBadDate, creatorTag,
    XElem.children,
    show ((str "channel") == (str "item")) = false from by decide,
    show ((str "item") == (str "item")) = true from by decide,
    show ((str "title") == (str "item")) = false from by decide,
    show ((str "description") == (str "item")) = false from by decide,
    show ((str "\x7bhttp://purl.org/dc/elements/1.1/\x7dcreator") == (str "item")) = false
      from by decide,
    show ((str "pubDate") == (str "item")) = false from by decide,
    show ((str "link") == (str "item")) = false from by decide]

/-- Witness for C8: the malformed second item of `rootBadDate` aborts the
parse even though the first item is fine. -/
theorem C8_bad_timestamp_aborts_run_witness :
    ∃ e, fetch_habr_articles fmtDateTest rootBadDate = .error e ∧
      ∀ res, fetch_habr_articles fmtDateTest rootBadDate ≠ .ok res :=
  C8_bad_timestamp_aborts_run fmtDateTest rootBadDate itemBadDate
    (str "Another title") (str "text") (str "someone") (str "not a timestamp")
    (by rw [findItems_rootBadDate]; exact List.mem_cons_of_mem _ (List.mem_cons_self _ _))
    (by decide) (by decide) (by decide) (by decide) (by decide)

/-- An item element whose title, description and creator elements are present
but carry no text, with no category children. -/
def degenerateItem (d l : Str) : XElem := .mk (str "item") none
  [.mk (str "title") none [],
   .mk (str "description") none [],
   .mk creatorTag none [],
   .mk (str "pubDate") (some d) [],
   .mk (str "link") (some l) []]

/-- A concrete item element with no title child at all. -/
def itemNoTitle : XElem := .mk (str "item") none
  [.mk (str "description") (some (str "text")) [],
   .mk creatorTag (some (str "someone")) [],
   .mk (str "pubDate") (some (str "Mon, 01 Jan 2024 00:00:00 GMT")) [],
   .mk (str "link") (some (str "https://habr.com/ru/p/3/")) []]

/-- C6 counterexample: an item element in which the title element is missing
is not degraded to an empty title — its parse raises `AttributeError`
(`item.find("title")` is `None` and `.text` is taken of it). -/
theorem C6_missing_title_fails :
    processItem fmtDateTest itemNoTitle = .error .attributeError := by decide

/-- C6 amended: a title/description/creator element that is present but has
no text degrades to the empty string, absent category elements degrade to the
empty list, and such an item is still processed (with exclusion applied to
the empty fields); but an item whose title element is absent altogether fails
with `AttributeError` instead of degrading. -/
theorem C6_empty_text_degrades (fmtDate : Str → Option Str) (d l fd : Str)
    (it : XElem) (hdate : fmtDate d = some fd) (hq : '?' ∉ l) :
    processItem fmtDate (degenerateItem d l) = .ok (.inr ⟨[], l, none, fd⟩) ∧
    (findTag (str "title") it = none →
      processItem fmtDate it = .error .attributeError) := by
  constructor
  · have h1 : textOrEmpty (str "title") (degenerateItem d l) = .ok [] := rfl
    have h2 : textOrEmpty (str "description") (degenerateItem d l) = .ok [] := rfl
    have h3 : textOrEmpty creatorTag (degenerateItem d l) = .ok [] := rfl
    have h4 : textOrEmpty (str "pubDate") (degenerateItem d l) = .ok d := rfl
    have hcat : categoriesOf (degenerateItem d l) = [] := rfl
    have hex : exclusionReason [] [] [] [] = none := by decide
    have hfl : findTag (str "link") (degenerateItem d l) =
      some (XElem.mk (str "link") (some l) []) := rfl
    have hl : linkOf (degenerateItem d l) = .ok l := by
      unfold linkOf
      rw [hfl]
      simp [XElem.text, stripQuery_eq_self hq]
    unfold processItem
    rw [h1, h2, h3, h4]
    simp [hdate, hcat, hex, hl, show extract_image_url [] = none from by decide]
  · intro hmiss
    have h1 : textOrEmpty (str "title") it = .error .attributeError := by
      unfold textOrEmpty
      rw [hmiss]
    unfold processItem
    rw [h1]

/-- Witness for C6 amended, at concrete date and link values. -/
theorem C6_empty_text_degrades_witness :
    processItem fmtDateTest (degenerateItem (str "Mon, 01 Jan 2024 00:00:00 GMT")
      (str "https://habr.com/ru/p/4/")) =
      .ok (.inr ⟨[], str "https://habr.com/ru/p/4/", none, str "2024-01-01"⟩) :=
  (C6_empty_text_degrades fmtDateTest (str "Mon, 01 Jan 2024 00:00:00 GMT")
    (str "https://habr.com/ru/p/4/") (str "2024-01-01") itemNoTitle
    (by decide) (by decide)).1

/-- A well-formed feed document containing no item elements. -/
def rootNoItems : XElem := .mk (str "rss") none [.mk (str "channel") none []]

theorem findItems_rootNoItems : findItems rootNoItems = [] := by
  simp [findItems, findItemsL, rootNoItems, XElem.children,
    show ((str "channel") == (str "item")) = false from by decide]

/-- C7 counterexample: a well-formed document with no item elements parses to
an empty article list — the code has no `FeedFormatError` and does not abort. -/
theorem C7_no_items_counterexample :
    fetch_habr_articles fmtDateTest rootNoItems = .ok ([], []) := by
  rw [fetch_habr_articles, findItems_rootNoItems]
  rfl

/-- C7 amended: a well-formed document with no item elements yields the empty
excluded and article lists, and the run then takes the `No new articles`
early return, touching nothing — it does not abort with an error. -/
theorem C7_no_items_yields_empty (fmtDate : Str → Option Str) (tr : Str → Str)
    (oracle : Str → Bool) (root : XElem) (store0 : ContentStore) (img0 : List Str)
    (branchExists dry : Bool) (urls : List Str)
    (hempty : findItems root = [])
    (hgh : fetch_github_articles (store0.map (·.2)) = .ok urls) :
    fetch_habr_articles fmtDate root = .ok ([], []) ∧
    runMain fmtDate tr oracle root store0 img0 branchExists dry =
      .ok ⟨store0, img0, [], [], none⟩ := by
  have hfetch : fetch_habr_articles fmtDate root = .ok ([], []) := by
    rw [fetch_habr_articles, hempty]
    rfl
  refine ⟨hfetch, ?_⟩
  unfold runMain
  rw [hfetch, hgh]
  simp

/-- Witness for C7 amended at the concrete empty store and no-item feed. -/
theorem C7_no_items_yields_empty_witness :
    runMain fmtDateTest trTest (fun _ => true) rootNoItems [] [] false true =
      .ok ⟨[], [], [], [], none⟩ :=
  (C7_no_items_yields_empty fmtDateTest trTest (fun _ => true) rootNoItems [] [] false true []
    findItems_rootNoItems (by decide)).2

theorem save_image_none {oracle : Str → Bool} {u : Option Str} (fn : Str)
    (h : u = none ∨ ∃ url, u = some url ∧ oracle url = false) :
    save_image oracle u fn = none := by
  rcases h with h | ⟨url, hu, ho⟩
  · rw [h]
    rfl
  · rw [hu]
    simp [save_image, ho]

theorem createLoop_collects {tr : Str → Str} {oracle : Str → Bool} :
    ∀ (arts : List FeedItem) (store : ContentStore) (img : List Str) {a : FeedItem},
    a ∈ arts →
    ∃ fn, (mdPathOf fn, save_image oracle a.image_url fn) ∈
      (createLoop tr oracle store img arts).2.2
  | [], _, _, _, h => absurd h (List.not_mem_nil _)
  | b :: rest, store, img, a, h => by
    rcases List.mem_cons.mp h with h1 | h1
    · subst h1
      refine ⟨transliterate_filename tr (store.map (·.1)) a.title, ?_⟩
      simp [createLoop, processNewArticle, create_markdown_file]
    · obtain ⟨fn, hmem⟩ := createLoop_collects rest
        (processNewArticle tr oracle store img b).1
        (processNewArticle tr oracle store img b).2.1 h1
      refine ⟨fn, ?_⟩
      simp only [createLoop]
      exact List.mem_cons_of_mem _ hmem

/-- C9: an accepted article whose image URL is absent, or whose image
fetch/decode/save fails, gets `none` from the image step without raising;
its markdown entry is still written into the store, and the collected
artifact pair carries the entry path with an absent image path — the
article's processing is never aborted by the image failure. -/
theorem C9_image_failure_tolerated (tr : Str → Str) (oracle : Str → Bool)
    (store : ContentStore) (imgStore : List Str) (arts : List FeedItem) (a : FeedItem)
    (hmem : a ∈ arts)
    (hfail : a.image_url = none ∨ ∃ url, a.image_url = some url ∧ oracle url = false) :
    (∀ fn, save_image oracle a.image_url fn = none) ∧
    ((processNewArticle tr oracle store imgStore a).2.2 =
      (mdPathOf (transliterate_filename tr (store.map (·.1)) a.title), none) ∧
     (processNewArticle tr oracle store imgStore a).2.2.1 ∈
       (processNewArticle tr oracle store imgStore a).1.map (·.1) ∧
     (processNewArticle tr oracle store imgStore a).2.1 = imgStore) ∧
    (∃ fn, (mdPathOf fn, (none : Option Str)) ∈
      (createLoop tr oracle store imgStore arts).2.2) := by
  have hnone : ∀ fn, save_image oracle a.image_url fn = none :=
    fun fn => save_image_none fn hfail
  refine ⟨hnone, ⟨?_, ?_, ?_⟩, ?_⟩
  · simp [processNewArticle, create_markdown_file, hnone]
  · simp [processNewArticle, create_markdown_file]
  · simp [processNewArticle, hnone]
  · obtain ⟨fn, hm⟩ := createLoop_collects arts store imgStore hmem
    rw [hnone fn] at hm
    exact ⟨fn, hm⟩

/-- Witness for C9: a one-article run whose article has no image URL still
collects an artifact pair with the entry path and an absent image path. -/
theorem C9_image_failure_tolerated_witness :
    ∃ fn, (mdPathOf fn, (none : Option Str)) ∈
      (createLoop trTest (fun _ => false) [] [] [artTest]).2.2 :=
  (C9_image_failure_tolerated trTest (fun _ => false) [] [] [artTest] artTest
    (List.mem_cons_self _ _) (Or.inl rfl)).2.2

theorem pubLoop_error_of_none {ex : Str → Bool} {dry : Bool} :
    ∀ (created : List (Str × Option Str)) {md : Str},
    (md, (none : Option Str)) ∈ created →
    (pubLoop ex dry created).2 = some .valueErrorRelpath
  | [], _, h => absurd h (List.not_mem_nil _)
  | (m, io) :: rest, md, h => by
    cases io with
    | none => simp [pubLoop]
    | some img =>
      rcases List.mem_cons.mp h with h1 | h1
      · exact absurd h1 (by simp)
      · have ih := @pubLoop_error_of_none ex dry rest md h1
        simp [pubLoop, ih]

theorem pubLoop_acts_shape {ex : Str → Bool} {dry : Bool} :
    ∀ (created : List (Str × Option Str)) {act : PubAct},
    act ∈ (pubLoop ex dry created).1 →
    (∃ m i, act = .gitAdd m i) ∨ (∃ r, act = .emuAdd r) ∨ (∃ m i, act = .warnMissing m i)
  | [], _, h => absurd h (List.not_mem_nil _)
  | (m, io) :: rest, act, h => by
    cases io with
    | none => simp [pubLoop] at h
    | some img =>
      simp only [pubLoop, List.mem_append] at h
      rcases h with h1 | h1
      · split at h1
        · simp at h1
          exact Or.inr (Or.inr ⟨m, img, h1⟩)
        · split at h1
          · simp at h1
            rcases h1 with h2 | h2
            · exact Or.inr (Or.inl ⟨relpath m, h2⟩)
            · exact Or.inr (Or.inl ⟨relpath img, h2⟩)
          · simp at h1
            exact Or.inl ⟨relpath m, relpath img, h1⟩
      · exact pubLoop_acts_shape rest h1

/-- C10 amended: an artifact list containing a pair with an absent image
path makes `commit_and_push_changes` raise an uncaught exception at the
relative-path computation — a `ValueError("no path specified")`, since
`posixpath.relpath` rejects an empty path before converting its argument, not
a `TypeError` — before the pair's existence check or `git add`, so the
publishing step aborts: no commit, push or pull-request action (real or
emulated) is ever emitted. -/
theorem C10_none_image_aborts_publishing (ex : Str → Bool) (branchExists dry : Bool)
    (created : List (Str × Option Str)) (md : Str)
    (hmem : (md, (none : Option Str)) ∈ created) :
    (commit_and_push_changes ex branchExists dry created).2 = some .valueErrorRelpath ∧
    (commit_and_push_changes ex branchExists dry created).2 ≠ some .typeError ∧
    (∀ act ∈ (commit_and_push_changes ex branchExists dry created).1,
      act ≠ .gitCommit ∧ act ≠ .emuCommit ∧ act ≠ .gitPush ∧ act ≠ .emuPush ∧
      act ≠ .gitPr ∧ act ≠ .emuPr) := by
  have herr := @pubLoop_error_of_none ex dry created md hmem
  refine ⟨?_, ?_, ?_⟩
  · simp [commit_and_push_changes, herr]
  · simp [commit_and_push_changes, herr]
  · intro act hact
    have hact' : act ∈ ((if branchExists then [PubAct.gitDeleteBranch] else []) ++
        (if dry then [PubAct.emuBranch] else [PubAct.gitBranch]) ++
        (pubLoop ex dry created).1 ++
        (match (pubLoop ex dry created).2 with
         | some _ => ([] : List PubAct)
         | none =>
           if dry then [PubAct.emuCommit, PubAct.emuPush, PubAct.emuPr]
           else [PubAct.gitCommit, PubAct.gitPush, PubAct.gitPr])) := hact
    rcases List.mem_append.mp hact' with h12 | htail
    · rcases List.mem_append.mp h12 with h3 | h3
      · rcases List.mem_append.mp h3 with h4 | h4
        · split at h4
          · simp at h4
            subst h4
            simp
          · cases h4
        · split at h4 <;> (simp at h4; subst h4; simp)
      · rcases pubLoop_acts_shape created h3 with ⟨m, i, h2⟩ | ⟨r, h2⟩ | ⟨m, i, h2⟩ <;>
          subst h2 <;> simp
    · rcases hlp : (pubLoop ex dry created).2 with _ | te
      · rw [hlp] at herr
        cases herr
      · rw [hlp] at htail
        simp at htail

/-- C10 counterexample: at a concrete two-pair artifact list whose second
pair has no image path, the publishing step's uncaught exception is the
`ValueError` of `posixpath.relpath` on an empty path, not a `TypeError`. -/
theorem C10_not_a_typeerror :
    (commit_and_push_changes (fun _ => true) false false
      [(str "a.md", some (str "a.webp")), (str "b.md", none)]).2 =
        some .valueErrorRelpath ∧
    (commit_and_push_changes (fun _ => true) false false
      [(str "a.md", some (str "a.webp")), (str "b.md", none)]).2 ≠
        some .typeError := by
  constructor <;> decide

/-- Witness for C10 amended: the same artifact list makes the publishing step
raise the `ValueError` and emit no commit, push or pull-request action. -/
theorem C10_none_image_aborts_publishing_witness :
    (commit_and_push_changes (fun _ => true) false false
      [(str "a.md", some (str "a.webp")), (str "b.md", none)]).2 =
      some .valueErrorRelpath :=
  (C10_none_image_aborts_publishing (fun _ => true) false false
    [(str "a.md", some (str "a.webp")), (str "b.md", none)] (str "b.md")
    (List.mem_cons_of_mem _ (List.mem_cons_self _ _))).1

/-- A feed whose only item is `itemTest`. -/
def rootTest : XElem := .mk (str "rss") none [.mk (str "channel") none [itemTest]]

theorem findItems_rootTest : findItems rootTest = [itemTest] := by
  simp [findItems, findItemsL, rootTest, itemTest, creatorTag, XElem.children,
    show ((str "channel") == (str "item")) = false from by decide,
    show ((str "item") == (str "item")) = true from by decide,
    show ((str "title") == (str "item")) = false from by decide,
    show ((str "description") == (str "item")) = false from by decide,
    show ((str "\x7bhttp://purl.org/dc/elements/1.1/\x7dcreator") == (str "item")) = false
      from by decide,
    show ((str "pubDate") == (str "item")) = false from by decide,
    show ((str "link") == (str "item")) = false from by decide]

/-- A content store that already holds the entry file of `artTest`, as the
first run would have written it. -/
def storeSecondRun : ContentStore :=
  [(mdPathOf (str "test_title"),
    mdContent (str "Test title") (str "https://habr.com/ru/p/1/")
      (str "test_title") (str "2024-01-01"))]

theorem runMain_ok_unfold {fmtDate : Str → Option Str} {tr : Str → Str}
    {oracle : Str → Bool} {root : XElem} {store0 : ContentStore} {img0 : List Str}
    {branchExists dry : Bool} {excluded : List Str} {habr : List FeedItem}
    {urls : List Str}
    (hfetch : fetch_habr_articles fmtDate root = .ok (excluded, habr))
    (hgh : fetch_github_articles (store0.map (·.2)) = .ok urls) :
    runMain fmtDate tr oracle root store0 img0 branchExists dry =
      (if (habr.filter (fun a => !(urls.contains a.link))).isEmpty then
        .ok ⟨store0, img0, [], [], none⟩
      else
        let res := createLoop tr oracle store0 img0
          (habr.filter (fun a => !(urls.contains a.link)))
        let ex := fun p => (res.1.map (·.1)).contains p || res.2.1.contains p
        let cp := commit_and_push_changes ex branchExists dry res.2.2
        .ok ⟨res.1, res.2.1, res.2.2, cp.1, cp.2⟩) := by
  unfold runMain
  rw [hfetch, hgh]

/-- C2: deduplication is keyed on the canonical link.  Every article that
survives the dedup filter has a canonical link outside the url set enumerated
from the content store, and when the store already contains every canonical
link of the (unchanged) feed, the run takes the early return: no entry file,
no image, no collected pair, no publishing action. -/
theorem C2_dedup_on_canonical_link (fmtDate : Str → Option Str) (tr : Str → Str)
    (oracle : Str → Bool) (root : XElem) (store0 : ContentStore) (img0 : List Str)
    (branchExists dry : Bool) (excluded : List Str) (habr : List FeedItem)
    (urls : List Str)
    (hfetch : fetch_habr_articles fmtDate root = .ok (excluded, habr))
    (hgh : fetch_github_articles (store0.map (·.2)) = .ok urls) :
    (∀ a ∈ habr.filter (fun a => !(urls.contains a.link)), a.link ∉ urls) ∧
    ((∀ a ∈ habr, a.link ∈ urls) →
      runMain fmtDate tr oracle root store0 img0 branchExists dry =
        .ok ⟨store0, img0, [], [], none⟩) := by
  constructor
  · intro a ha
    have hf := List.of_mem_filter ha
    simpa using hf
  · intro hall
    have hfil : habr.filter (fun a => !(urls.contains a.link)) = [] := by
      rw [List.filter_eq_nil_iff]
      intro a ha
      simp [hall a ha]
    rw [runMain_ok_unfold hfetch hgh]
    simp only [hfil]
    simp

set_option maxRecDepth 40000 in
/-- Witness for C2: running against `rootTest` with a store already holding
the article's canonical link produces the untouched-store early return. -/
theorem C2_dedup_on_canonical_link_witness :
    runMain fmtDateTest trTest (fun _ => true) rootTest storeSecondRun [] false false =
      .ok ⟨storeSecondRun, [], [], [], none⟩ :=
  (C2_dedup_on_canonical_link fmtDateTest trTest (fun _ => true) rootTest storeSecondRun
    [] false false [] [artTest] [str "https://habr.com/ru/p/1/"]
    (by rw [fetch_habr_articles, findItems_rootTest]; decide)
    (by decide)).2 (by decide)

/-- Decimal value of a digit string; left inverse of `decimal` used to prove
injectivity. -/
def charsVal (s : Str) : Nat := s.foldl (fun a c => a * 10 + (c.toNat - 48)) 0

theorem digitChar_val {d : Nat} (h : d < 10) : (Nat.digitChar d).toNat - 48 = d := by
  interval_cases d <;> rfl

theorem decimalAux_zero : ∀ fuel, decimalAux fuel 0 = []
  | 0 => rfl
  | _ + 1 => by simp [decimalAux]

theorem charsVal_append_digit (xs : Str) (c : Char) :
    charsVal (xs ++ [c]) = charsVal xs * 10 + (c.toNat - 48) := by
  simp [charsVal, List.foldl_append]

theorem decimalAux_val : ∀ (fuel n : Nat), 0 < n → n ≤ fuel →
    charsVal (decimalAux fuel n) = n
  | 0, n, h1, h2 => by omega
  | fuel + 1, n, h1, h2 => by
    have hne : ¬ n = 0 := by omega
    rw [decimalAux, if_neg hne, charsVal_append_digit,
      digitChar_val (Nat.mod_lt n (by norm_num))]
    by_cases hq : n / 10 = 0
    · rw [hq, decimalAux_zero]
      have := Nat.div_add_mod n 10
      simp [charsVal]
      omega
    · have hlt : n / 10 < n := Nat.div_lt_self h1 (by norm_num)
      rw [decimalAux_val fuel (n / 10) (Nat.pos_of_ne_zero hq) (by omega)]
      have := Nat.div_add_mod n 10
      omega

theorem decimal_val {n : Nat} (h : 0 < n) : charsVal (decimal n) = n := by
  rw [decimal, if_neg (by omega)]
  exact decimalAux_val n n h le_rfl

theorem decimal_inj {a b : Nat} (ha : 0 < a) (hb : 0 < b)
    (h : decimal a = decimal b) : a = b := by
  rw [← decimal_val ha, ← decimal_val hb, h]

theorem cand_inj (base : Str) : ∀ {i j : Nat}, cand base i = cand base j → i = j
  | 0, 0, _ => rfl
  | 0, j + 1, h => by
    have hlen := congrArg List.length h
    simp [cand] at hlen
  | i + 1, 0, h => by
    have hlen := congrArg List.length h
    simp [cand] at hlen
  | i + 1, j + 1, h => by
    have h2 := List.append_cancel_left (h : base ++ '_' :: decimal (i + 1) =
      base ++ '_' :: decimal (j + 1))
    have h3 := List.tail_eq_of_cons_eq h2
    have := decimal_inj (Nat.succ_pos i) (Nat.succ_pos j) h3
    omega

theorem mdPathOf_inj {a b : Str} (h : mdPathOf a = mdPathOf b) : a = b := by
  unfold mdPathOf pathJoin at h
  have h2 := List.append_cancel_left h
  have h3 := List.tail_eq_of_cons_eq h2
  exact List.append_inj_left' h3 rfl

theorem exists_free_cand (existing : List Str) (base : Str) :
    ∃ j, j ≤ existing.length ∧ mdPathOf (cand base j) ∉ existing := by
  by_contra hc
  push_neg at hc
  have hinj : Function.Injective (fun i : Nat => mdPathOf (cand base i)) :=
    fun i1 i2 h => cand_inj base (mdPathOf_inj h)
  have hnodup : ((List.range (existing.length + 1)).map
      (fun i => mdPathOf (cand base i))).Nodup :=
    List.Nodup.map hinj (List.nodup_range _)
  have hsub : ((List.range (existing.length + 1)).map
      (fun i => mdPathOf (cand base i))) ⊆ existing := by
    intro x hx
    obtain ⟨i, hi, rfl⟩ := List.mem_map.mp hx
    exact hc i (Nat.lt_succ_iff.mp (List.mem_range.mp hi))
  have hlen := (List.subperm_of_subset hnodup hsub).length_le
  simp at hlen

theorem resolveLoop_finds_least (existing : List Str) (base : Str) :
    ∀ (fuel k : Nat),
    (∃ j, k ≤ j ∧ j ≤ k + fuel ∧ mdPathOf (cand base j) ∉ existing) →
    ∃ m, resolveLoop existing base fuel k = cand base m ∧
      mdPathOf (cand base m) ∉ existing ∧ k ≤ m ∧
      ∀ i, k ≤ i → i < m → mdPathOf (cand base i) ∈ existing
  | 0, k, ⟨j, h1, h2, h3⟩ => by
    have hjk : j = k := by omega
    subst hjk
    exact ⟨j, rfl, h3, le_rfl,
      fun i hi1 hi2 => absurd (lt_of_le_of_lt hi1 hi2) (lt_irrefl _)⟩
  | fuel + 1, k, ⟨j, h1, h2, h3⟩ => by
    by_cases hmem : mdPathOf (cand base k) ∈ existing
    · have hjk : j ≠ k := fun hh => (hh ▸ h3) hmem
      obtain ⟨m, hm1, hm2, hm3, hm4⟩ := resolveLoop_finds_least existing base fuel (k + 1)
        ⟨j, by omega, by omega, h3⟩
      refine ⟨m, ?_, hm2, by omega, ?_⟩
      · simp [resolveLoop, hmem, hm1]
      · intro i hi1 hi2
        rcases Nat.eq_or_lt_of_le hi1 with he | hlt
        · exact he ▸ hmem
        · exact hm4 i hlt hi2
    · exact ⟨k, by simp [resolveLoop, hmem], hmem, le_rfl,
        fun i hi1 hi2 => absurd (lt_of_le_of_lt hi1 hi2) (lt_irrefl _)⟩

theorem transliterate_filename_spec (tr : Str → Str) (existing : List Str) (title : Str) :
    ∃ m, transliterate_filename tr existing title =
      cand (List.intercalate (str "_")
        ((pyWords ((pyLowerS (tr title)).filter (fun c => pyIsAlnum c || c == ' '))).take 7)) m ∧
    mdPathOf (transliterate_filename tr existing title) ∉ existing ∧
    ∀ i < m, mdPathOf (cand (List.intercalate (str "_")
      ((pyWords ((pyLowerS (tr title)).filter (fun c => pyIsAlnum c || c == ' '))).take 7)) i)
      ∈ existing := by
  obtain ⟨j, hj, hfree⟩ := exists_free_cand existing
    (List.intercalate (str "_")
      ((pyWords ((pyLowerS (tr title)).filter (fun c => pyIsAlnum c || c == ' '))).take 7))
  obtain ⟨m, hm1, hm2, _, hm4⟩ := resolveLoop_finds_least existing
    (List.intercalate (str "_")
      ((pyWords ((pyLowerS (tr title)).filter (fun c => pyIsAlnum c || c == ' '))).take 7))
    (existing.length + 1) 0 ⟨j, Nat.zero_le _, by omega, hfree⟩
  have heq : transliterate_filename tr existing title =
      resolveLoop existing
        (List.intercalate (str "_")
          ((pyWords ((pyLowerS (tr title)).filter (fun c => pyIsAlnum c || c == ' '))).take 7))
        (existing.length + 1) 0 := rfl
  exact ⟨m, heq.trans hm1, by rw [heq, hm1]; exact hm2,
    fun i hi => hm4 i (Nat.zero_le _) hi⟩

/-- C5: the derived filename is the transliterated, lower-cased title with
non-alphanumeric non-space characters removed, at most its first seven words
joined by underscores, carrying the smallest numeric suffix (none, `_1`,
`_2`, dots) whose `.md` path does not exist in the content directory at call
time; consequently a second call with the same title against a store that now
contains the first call's file returns a different name. -/
theorem C5_filename_derivation (tr : Str → Str) (existing : List Str) (title : Str) :
    (∃ m, transliterate_filename tr existing title =
        cand (List.intercalate (str "_")
          ((pyWords ((pyLowerS (tr title)).filter (fun c => pyIsAlnum c || c == ' '))).take 7)) m ∧
      ∀ i < m, mdPathOf (cand (List.intercalate (str "_")
        ((pyWords ((pyLowerS (tr title)).filter (fun c => pyIsAlnum c || c == ' '))).take 7)) i)
        ∈ existing) ∧
    mdPathOf (transliterate_filename tr existing title) ∉ existing ∧
    (∀ store2 : List Str,
      mdPathOf (transliterate_filename tr existing title) ∈ store2 →
      transliterate_filename tr store2 title ≠ transliterate_filename tr existing title) := by
  obtain ⟨m, hm1, hm2, hm3⟩ := transliterate_filename_spec tr existing title
  refine ⟨⟨m, hm1, hm3⟩, hm2, ?_⟩
  intro store2 hmem hcontra
  obtain ⟨m2, _, hfree2, _⟩ := transliterate_filename_spec tr store2 title
  rw [hcontra] at hfree2
  exact hfree2 hmem

/-- Witness for C5: with the base name already taken, the derived name is
fresh, and deriving again after the first file is written gives a different
name. -/
theorem C5_filename_derivation_witness :
    mdPathOf (transliterate_filename trTest [mdPathOf (str "test_title")] (str "Test title")) ∉
      [mdPathOf (str "test_title")] ∧
    transliterate_filename trTest
        [mdPathOf (str "test_title"),
         mdPathOf (transliterate_filename trTest [mdPathOf (str "test_title")] (str "Test title"))]
        (str "Test title") ≠
      transliterate_filename trTest [mdPathOf (str "test_title")] (str "Test title") :=
  ⟨(C5_filename_derivation trTest [mdPathOf (str "test_title")] (str "Test title")).2.1,
   (C5_filename_derivation trTest [mdPathOf (str "test_title")] (str "Test title")).2.2
     [mdPathOf (str "test_title"),
      mdPathOf (transliterate_filename trTest [mdPathOf (str "test_title")] (str "Test title"))]
     (List.mem_cons_of_mem _ (List.mem_cons_self _ _))⟩

theorem pubLoop_dry_no_gitAdd {ex : Str → Bool} :
    ∀ (created : List (Str × Option Str)) (m i : Str),
    PubAct.gitAdd m i ∉ (pubLoop ex true created).1
  | [], m, i => List.not_mem_nil _
  | (f, io) :: rest, m, i => by
    cases io with
    | none => simp [pubLoop]
    | some img =>
      intro h
      simp only [pubLoop, List.mem_append] at h
      rcases h with h1 | h1
      · split at h1 <;> simp at h1
      · exact pubLoop_dry_no_gitAdd rest m i h1

theorem commit_and_push_dry_no_real_git {ex : Str → Bool} {branchExists : Bool}
    {created : List (Str × Option Str)} {act : PubAct}
    (h : act ∈ (commit_and_push_changes ex branchExists true created).1) :
    act ≠ .gitBranch ∧ (∀ m i, act ≠ .gitAdd m i) ∧ act ≠ .gitCommit ∧
    act ≠ .gitPush ∧ act ≠ .gitPr := by
  have key : act ∈ (pubLoop ex true created).1 →
      act ≠ .gitBranch ∧ (∀ m i, act ≠ .gitAdd m i) ∧ act ≠ .gitCommit ∧
      act ≠ .gitPush ∧ act ≠ .gitPr := by
    intro hmem
    rcases pubLoop_acts_shape created hmem with ⟨m, i, h2⟩ | ⟨r, h2⟩ | ⟨m, i, h2⟩
    · exact absurd (h2 ▸ hmem) (pubLoop_dry_no_gitAdd created m i)
    · subst h2
      simp
    · subst h2
      simp
  unfold commit_and_push_changes at h
  simp only [List.mem_append] at h
  rcases h with ((h1 | h1) | h1) | h1
  · split at h1
    · simp at h1
      subst h1
      simp
    · cases h1
  · simp at h1
    subst h1
    simp
  · exact key h1
  · split at h1
    · cases h1
    · simp at h1
      rcases h1 with h2 | h2 | h2 <;> subst h2 <;> simp

theorem createLoop_store_grows (tr : Str → Str) (oracle : Str → Bool) :
    ∀ (arts : List FeedItem) (store : ContentStore) (img : List Str),
    store <+: (createLoop tr oracle store img arts).1
  | [], store, img => List.prefix_rfl
  | a :: rest, store, img => by
    have h1 : store <+: (processNewArticle tr oracle store img a).1 := by
      simp only [processNewArticle, create_markdown_file]
      exact ⟨_, rfl⟩
    exact h1.trans (createLoop_store_grows tr oracle rest _ _)

theorem createLoop_created_in_store (tr : Str → Str) (oracle : Str → Bool) :
    ∀ (arts : List FeedItem) (store : ContentStore) (img : List Str)
      (pr : Str × Option Str),
    pr ∈ (createLoop tr oracle store img arts).2.2 →
    pr.1 ∈ (createLoop tr oracle store img arts).1.map (·.1)
  | [], _, _, _, h => absurd h (List.not_mem_nil _)
  | a :: rest, store, img, pr, h => by
    simp only [createLoop] at h ⊢
    rcases List.mem_cons.mp h with h1 | h1
    · subst h1
      have hmem : (processNewArticle tr oracle store img a).2.2.1 ∈
          (processNewArticle tr oracle store img a).1.map (·.1) := by
        simp [processNewArticle, create_markdown_file]
      have hpre := createLoop_store_grows tr oracle rest
        (processNewArticle tr oracle store img a).1
        (processNewArticle tr oracle store img a).2.1
      exact (hpre.map (·.1)).subset hmem
    · exact createLoop_created_in_store tr oracle rest _ _ pr h1

/-- C1 amended: the dry-run flag is threaded only into the publishing step.
A dry run emits no real branch creation, staging, commit, push or
pull-request action (they are emulated; only the deletion of a pre-existing
same-named branch stays real), but the per-article file writes are not
suppressed: every collected entry path has been written into the content
store. -/
theorem C1_dry_run_behavior (fmtDate : Str → Option Str) (tr : Str → Str)
    (oracle : Str → Bool) (root : XElem) (store0 : ContentStore) (img0 : List Str)
    (branchExists : Bool) (r : RunResult)
    (hrun : runMain fmtDate tr oracle root store0 img0 branchExists true = .ok r) :
    (∀ act ∈ r.acts, act ≠ .gitBranch ∧ (∀ m i, act ≠ .gitAdd m i) ∧
      act ≠ .gitCommit ∧ act ≠ .gitPush ∧ act ≠ .gitPr) ∧
    (∀ pr ∈ r.created_files, pr.1 ∈ r.contentStore.map (·.1)) := by
  unfold runMain at hrun
  split at hrun
  · cases hrun
  · split at hrun
    · cases hrun
    · simp only [] at hrun
      split at hrun
      · injection hrun with h2
        subst h2
        exact ⟨fun act h => absurd h (List.not_mem_nil _),
               fun pr h => absurd h (List.not_mem_nil _)⟩
      · injection hrun with h2
        subst h2
        constructor
        · intro act hact
          exact commit_and_push_dry_no_real_git hact
        · intro pr hpr
          exact createLoop_created_in_store tr oracle _ store0 img0 pr hpr

/-- The observable outcome of the dry run of `C1_dry_run_writes_files`. -/
def runResultTest : RunResult :=
  ⟨[(mdPathOf (str "test_title"),
     mdContent (str "Test title") (str "https://habr.com/ru/p/1/")
       (str "test_title") (str "2024-01-01"))],
   [], [(mdPathOf (str "test_title"), none)],
   [PubAct.emuBranch], some .valueErrorRelpath⟩

set_option maxRecDepth 40000 in
/-- C1 counterexample: a dry run over a one-article feed and an empty store
still writes the markdown entry file into the content store — the final
store is non-empty, refuting `no markdown entry file is created`. -/
theorem C1_dry_run_writes_files :
    runMain fmtDateTest trTest (fun _ => true) rootTest [] [] false true =
      .ok runResultTest := by
  have hfetch : fetch_habr_articles fmtDateTest rootTest = .ok ([], [artTest]) := by
    rw [fetch_habr_articles, findItems_rootTest]
    decide
  have hgh : fetch_github_articles (([] : ContentStore).map (·.2)) = .ok [] := by decide
  rw [runMain_ok_unfold hfetch hgh]
  decide

set_option maxRecDepth 40000 in
/-- Witness for C1 amended, at the same concrete dry run. -/
theorem C1_dry_run_behavior_witness :
    (∀ act ∈ runResultTest.acts, act ≠ PubAct.gitBranch ∧
      (∀ m i, act ≠ PubAct.gitAdd m i) ∧ act ≠ PubAct.gitCommit ∧
      act ≠ PubAct.gitPush ∧ act ≠ PubAct.gitPr) ∧
    (∀ pr ∈ runResultTest.created_files,
      pr.1 ∈ runResultTest.contentStore.map (·.1)) :=
  C1_dry_run_behavior fmtDateTest trTest (fun _ => true) rootTest [] [] false runResultTest
    (by
      rw [runMain_ok_unfold
        (show fetch_habr_articles fmtDateTest rootTest = .ok ([], [artTest]) by
          rw [fetch_habr_articles, findItems_rootTest]; decide)
        (show fetch_github_articles (([] : ContentStore).map (·.2)) = .ok [] by decide)]
      decide)
